import Mathlib

/-
Shallow embedding of the time-series preparation and forecast post-processing
pipeline of src/dbos_fct/badi/functions.py (the badi_counts repository).

Modelling conventions:
- Naive ("zone-dropped") datetimes are minutes since an epoch midnight, as Nat.
  The source works at second resolution but every operation the claims concern
  (half-hour grids, hour/minute tests, day arithmetic) lives on whole minutes;
  the source rounds seconds/microseconds away wherever they could matter.
- A timezone-aware instant is a pair of its UTC minute value and its zone
  offset in minutes (zones east of UTC, which covers the Europe/Zurich zone the
  program uses).  datetime.astimezone(UTC).replace(tzinfo=None) yields the utc
  field; hour/minute/date accessors of an aware timestamp read its wall clock,
  utc + offset.  Daylight-saving jumps are not modelled: pandas date_range over
  a fixed-offset wall clock is plain minute arithmetic.
- Frames are lists of rows.  The feature columns the source attaches
  (hour_sin, hour_cos, weekday, period indicator columns) are deterministic
  functions of the ds column and no claim concerns them, so frames carry only
  the columns the claims are about (ds, y for training; ds plus the three
  forecast columns for prediction output).
- numpy round (used for per-point 2-decimal rounding and 1-decimal period
  averages) rounds half to even; it is modelled exactly on rationals.
-/

namespace Badi

/-- Minutes in one calendar day. -/
def minutesPerDay : Nat := 1440

/-- Wall-clock hour of a naive time given in minutes since epoch midnight. -/
def hourOf (t : Nat) : Nat := t % 1440 / 60

/-- Minute-of-hour of a naive time. -/
def minuteOf (t : Nat) : Nat := t % 60

/-- Calendar-day index of a naive time. -/
def dateOf (t : Nat) : Nat := t / 1440

/-- Time of day, in minutes since that day's midnight. -/
def timeOfDay (t : Nat) : Nat := t % 1440

/-- A timezone-aware instant: its UTC minute value and its zone offset. -/
structure Instant where
  utc : Nat
  offset : Nat
deriving DecidableEq, Repr

/-- Wall-clock (zone-local) minute value of an aware instant; this is what the
hour/minute/date accessors and tz_localize(None) of the source read. -/
def Instant.wall (t : Instant) : Nat := t.utc + t.offset

/-- One training-frame row: naive timestamp ds and target value y. -/
structure Row where
  ds : Nat
  y : ℚ
deriving DecidableEq, Repr

/-- functions.py line 326: keep the (timestamp, value) pairs whose value is
nonnegative.  The source keeps two index-aligned lists; the pairing is the
zip the list comprehension realises. -/
def validPairs (input : List (Instant × ℚ)) : List (Instant × ℚ) :=
  input.filter (fun p => 0 ≤ p.2)

/-- functions.py lines 334-342: the base training rows.  Each kept timestamp is
converted to UTC and its zone dropped (astimezone UTC, replace tzinfo None). -/
def baseRows (input : List (Instant × ℚ)) : List Row :=
  (validPairs input).map (fun p => Row.mk p.1.utc p.2)

/-- functions.py line 345: max over the UNFILTERED timestamp list.  Python's
max keeps the first maximal element. -/
def latestOf : List Instant → Option Instant
  | [] => none
  | t :: ts => some (ts.foldl (fun a b => if a.utc < b.utc then b else a) t)

/-- Minimum of the ds column of a nonempty frame (base_df ds min). -/
def minDs : List Row → Nat
  | [] => 0
  | r :: rs => rs.foldl (fun a b => min a b.ds) r.ds

/-- pandas date_range(start, stop, freq=30min): every half-hour step from
start that does not pass stop; empty when start is past stop. -/
def gridTimes (start stop : Nat) : List Nat :=
  if start ≤ stop then (List.range ((stop - start) / 30 + 1)).map (fun i => start + 30 * i)
  else []

/-- functions.py line 357: a slot falls in the closed window (hour ≥ 22 or
hour < 6, an OR because the window wraps midnight). -/
def isClosedHour (t : Nat) : Bool := decide (22 ≤ hourOf t) || decide (hourOf t < 6)

/-- functions.py lines 355-358: grid the covered range, give closed-hour slots
the value 0 and drop every other generated slot (the dropna). -/
def synthRows (start stop : Nat) : List Row :=
  ((gridTimes start stop).filter isClosedHour).map (fun t => Row.mk t 0)

/-- functions.py lines 360-364: when the latest observation's wall clock is
before 21:30 on its own day (hour < 21, or hour = 21 and minute < 30), drop
the synthetic rows lying after the latest observation's naive wall value. -/
def truncateSynth (lwall : Nat) (rows : List Row) : List Row :=
  if timeOfDay lwall < 1290 then rows.filter (fun r => r.ds ≤ lwall) else rows

/-- pandas sort_values("ds"): reorder the frame nondecreasing in ds. -/
def sortFrame (l : List Row) : List Row :=
  List.insertionSort (fun a b => a.ds ≤ b.ds) l

/-- Result of prepare_data: the training frame and the latest timestamp the
function also returns. -/
structure PrepOut where
  frame : List Row
  latest : Instant
deriving DecidableEq, Repr

/-- functions.py lines 320-385, prepare_data.  Negative-valued pairs are
filtered; failure when none remain (ValueError, modelled as none); the latest
timestamp is the max over ALL input timestamps; the covered range runs from
the floor-day of the earliest base row to 23:59 of the latest timestamp's
wall-clock day; closed-hour slots get synthetic zeros, truncated when the
latest observation precedes 21:30; base and synthetic rows are concatenated
(base first) and sorted by ds.  The source also validates that the two input
lists have equal length before pairing them (a ValueError); the claims treated
here all concern the paired phase. -/
def prepare_data (input : List (Instant × ℚ)) : Option PrepOut :=
  let base := baseRows input
  if base = [] then none
  else
    match latestOf (input.map Prod.fst) with
    | none => none
    | some latest =>
      let lwall := latest.wall
      let startDate := dateOf (minDs base) * 1440
      let endDate := dateOf lwall * 1440 + 23 * 60 + 59
      let synth := truncateSynth lwall (synthRows startDate endDate)
      some (PrepOut.mk (sortFrame (base ++ synth)) latest)

/-- functions.py lines 420-426: round the latest timestamp's wall clock up to
the next half-hour mark (minute < 30 gives :30 of the same hour, otherwise
:00 of the next hour). -/
def predictionStart (lwall : Nat) : Nat :=
  if minuteOf lwall < 30 then lwall - minuteOf lwall + 30
  else lwall - minuteOf lwall + 60

/-- functions.py lines 443-450: the future-grid filter.  Keep a slot when its
hour is in the operating window [6, 22), or when it falls on the current day
at an hour from the latest timestamp's hour up to 22. -/
def futureFilter (currentDate latestHour : Nat) (t : Nat) : Bool :=
  (decide (6 ≤ hourOf t) && decide (hourOf t < 22)) ||
    (decide (dateOf t = currentDate) && decide (latestHour ≤ hourOf t) &&
      decide (hourOf t < 22))

/-- functions.py lines 412-469, prepare_future_dates.  The grid runs from
prediction_start to 23:59 of (current day + days); the half-hour range is
generated on the target zone's wall clock and the zone dropped again, which on
a fixed-offset wall clock is the identity on the minute values.  The function
performs no emptiness check and has no failure path: it returns the filtered
grid as is.  Feature columns are again deterministic in ds and omitted. -/
def prepare_future_dates (latest : Instant) (days : Nat) : List Nat :=
  let lwall := latest.wall
  let currentDate := dateOf lwall
  let ps := predictionStart lwall
  let stop := (currentDate + days) * 1440 + 23 * 60 + 59
  (gridTimes ps stop).filter (futureFilter currentDate (hourOf lwall))

/-- One raw forecast row as produced by the model: naive timestamp ds and the
yhat / yhat_lower / yhat_upper columns. -/
structure FRow where
  ds : Nat
  yhat : ℚ
  lo : ℚ
  hi : ℚ
deriving DecidableEq, Repr

/-- pandas Series.clip(lower=0, upper=100) on one value. -/
def clip (q : ℚ) : ℚ := max 0 (min 100 q)

/-- functions.py lines 251-253: clip the three forecast columns of one row,
each independently of the others. -/
def clipRow (r : FRow) : FRow := FRow.mk r.ds (clip r.yhat) (clip r.lo) (clip r.hi)

/-- The clipping step applied to the whole forecast frame. -/
def clipForecast (rows : List FRow) : List FRow := rows.map clipRow

/-- The six regular (aggregation) time periods. -/
inductive Period where
  | early_morning
  | late_morning
  | lunch
  | afternoon
  | after_work
  | evening
deriving DecidableEq, Repr

/-- functions.py lines 109-113: REGULAR_PERIODS, the TIME_PERIODS table with
weekend_day, closed and peak_hours removed, in insertion order.  Each entry is
the period and its half-open hour range. -/
def regularPeriods : List (Period × Nat × Nat) :=
  [(Period.early_morning, 6, 9), (Period.late_morning, 9, 11), (Period.lunch, 11, 13),
    (Period.afternoon, 13, 16), (Period.after_work, 16, 19), (Period.evening, 19, 22)]

/-- functions.py lines 262-267: first regular period whose half-open hour
range contains the hour; none outside 06:00-22:00. -/
def classifyHour (h : Nat) : Option Period :=
  (regularPeriods.find? (fun p => decide (p.2.1 ≤ h) && decide (h < p.2.2))).map Prod.fst

/-- Rows of the (already clipped) forecast falling on one calendar day; the
source groups rows by the zone-local date string of the localized timestamp. -/
def dayRows (rows : List FRow) (d : Nat) : List FRow :=
  rows.filter (fun r => decide (dateOf r.ds = d))

/-- functions.py lines 288-291: the running (value, count) accumulator for one
period over the day's rows, fed with the unrounded clipped yhat values. -/
def accumPeriod (rows : List FRow) (p : Period) : ℚ × Nat :=
  rows.foldl
    (fun acc r =>
      if classifyHour (hourOf r.ds) = some p then (acc.1 + r.yhat, acc.2 + 1) else acc)
    (0, 0)

/-- numpy round to an integer: round half to even (banker's rounding). -/
def roundHalfEven (q : ℚ) : ℤ :=
  if q - ⌊q⌋ < 1 / 2 then ⌊q⌋
  else if 1 / 2 < q - ⌊q⌋ then ⌊q⌋ + 1
  else if 2 ∣ ⌊q⌋ then ⌊q⌋ else ⌊q⌋ + 1

/-- numpy round(x, 1). -/
def round1 (q : ℚ) : ℚ := (roundHalfEven (10 * q) : ℚ) / 10

/-- numpy round(x, 2). -/
def round2 (q : ℚ) : ℚ := (roundHalfEven (100 * q) : ℚ) / 100

/-- functions.py lines 296-308: the period summary of one day.  For each
regular period, in table order, the rounded average value/count of the
accumulator; a period whose count is zero is omitted.  The accumulators are
fed from the clipped, unrounded forecast. -/
def periodSummary (rows : List FRow) (d : Nat) : List (Period × ℚ) :=
  regularPeriods.filterMap
    (fun p =>
      let vc := accumPeriod (dayRows (clipForecast rows) d) p.1
      if 0 < vc.2 then some (p.1, round1 (vc.1 / (vc.2 : ℚ))) else none)

/-- functions.py lines 278-286: the detailed per-slot records of one day, the
three clipped values rounded to 2 decimals, tagged with the period. -/
def detailedOfDay (rows : List FRow) (d : Nat) :
    List (Nat × ℚ × ℚ × ℚ × Option Period) :=
  (dayRows (clipForecast rows) d).map
    (fun r => (r.ds, round2 r.yhat, round2 r.lo, round2 r.hi, classifyHour (hourOf r.ds)))

/-- Python exception classes distinguished by the except clauses of
process_and_predict: AssertionError, fastapi HTTPException, anything else. -/
inductive PyExc where
  | assertionError
  | httpException
  | otherError
deriving DecidableEq, Repr

/-- An existing Prophet model as process_and_predict observes it: its retained
training history (none models a model object without a history attribute,
whose access raises AttributeError) and the outcome of calling fit on a given
frame (some e models fit raising exception e, none a successful in-place
fit). -/
structure ProphetModel where
  history : Option (List Row)
  fitExc : List Row → Option PyExc

/-- pandas concat + drop_duplicates: keep the first occurrence of each row. -/
def dedupKeepFirst (l : List Row) : List Row :=
  l.foldl (fun acc r => if r ∈ acc then acc else acc ++ [r]) []

/-- Which frame the returned model was fitted on: the merged history (in-place
update) or the new frame alone (full refit). -/
inductive FitSource where
  | updated (frame : List Row)
  | refit (frame : List Row)
deriving DecidableEq, Repr

/-- fit_model(df): fitting a fresh model on df, which itself either succeeds
or raises; the fresh model's fit behaviour parametrises the embedding. -/
def fallbackFit (freshFitExc : List Row → Option PyExc) (df : List Row) :
    Except PyExc FitSource :=
  match freshFitExc df with
  | some e => Except.error e
  | none => Except.ok (FitSource.refit df)

/-- functions.py lines 220-233, the non-full-history branch of
process_and_predict.  The inner code asserts a model was supplied
(AssertionError otherwise), reads model.history (an AttributeError is caught
and re-raised as an HTTPException), schema-filters the history to the new
frame's columns (the identity here, both frames carrying the fixed training
schema), concatenates, deduplicates, and refits in place.  The except clause
catches exactly AssertionError and HTTPException and falls back to
fit_model(df); any other exception propagates. -/
def nonFullHistoryFit (model : Option ProphetModel)
    (freshFitExc : List Row → Option PyExc) (df : List Row) : Except PyExc FitSource :=
  let attempt : Except PyExc FitSource :=
    match model with
    | none => Except.error PyExc.assertionError
    | some m =>
      match m.history with
      | none => Except.error PyExc.httpException
      | some h =>
        let updated := dedupKeepFirst (h ++ df)
        match m.fitExc updated with
        | some e => Except.error e
        | none => Except.ok (FitSource.updated updated)
  match attempt with
  | Except.ok r => Except.ok r
  | Except.error PyExc.assertionError => fallbackFit freshFitExc df
  | Except.error PyExc.httpException => fallbackFit freshFitExc df
  | Except.error e => Except.error e

/-- Modelled from the spec (section 4.5 IncrementalFitPolicy), for comparison
with the code's control flow: no model or no retrievable history falls back
to a full refit; a successful update keeps the merged frame; and the policy
decision table records which exceptions of the in-place refit lead to the
fallback. -/
def incrementalFitPolicy (model : Option ProphetModel)
    (freshFitExc : List Row → Option PyExc) (df : List Row) : Except PyExc FitSource :=
  match model with
  | none => fallbackFit freshFitExc df
  | some m =>
    match m.history with
    | none => fallbackFit freshFitExc df
    | some h =>
      match m.fitExc (dedupKeepFirst (h ++ df)) with
      | none => Except.ok (FitSource.updated (dedupKeepFirst (h ++ df)))
      | some PyExc.assertionError => fallbackFit freshFitExc df
      | some PyExc.httpException => fallbackFit freshFitExc df
      | some PyExc.otherError => Except.error PyExc.otherError

instance : IsTotal Row fun a b => a.ds ≤ b.ds :=
  ⟨fun a b => Nat.le_total a.ds b.ds⟩

instance : IsTrans Row fun a b => a.ds ≤ b.ds :=
  ⟨fun _ _ _ h1 h2 => Nat.le_trans h1 h2⟩

/-- Membership in a half-hour grid: between the endpoints and half-hour
aligned relative to the start. -/
lemma mem_gridTimes {start stop t : Nat} :
    t ∈ gridTimes start stop ↔ start ≤ t ∧ t ≤ stop ∧ (t - start) % 30 = 0 := by
  unfold gridTimes
  by_cases h : start ≤ stop
  · simp only [if_pos h, List.mem_map, List.mem_range]
    constructor
    · rintro ⟨i, hi, rfl⟩
      omega
    · rintro ⟨h1, h2, h3⟩
      exact ⟨(t - start) / 30, by omega, by omega⟩
  · simp only [if_neg h, List.not_mem_nil, false_iff]
    omega

lemma foldl_max_utc_ge (ts : List Instant) (a : Instant) :
    a.utc ≤ (ts.foldl (fun a b => if a.utc < b.utc then b else a) a).utc ∧
      ∀ x ∈ ts, x.utc ≤ (ts.foldl (fun a b => if a.utc < b.utc then b else a) a).utc := by
  induction ts generalizing a with
  | nil => simp
  | cons b ts ih =>
    simp only [List.foldl_cons, List.mem_cons]
    have h2 := ih (if a.utc < b.utc then b else a)
    constructor
    · split at h2
      all_goals split_ifs at h2 ⊢
      all_goals omega
    · intro x hx
      rcases hx with hx | hx
      · subst hx
        rcases h2 with ⟨h2a, _⟩
        split_ifs at h2a ⊢
        all_goals omega
      · exact h2.2 x hx

/-- Every timestamp of the input list is no later (as an instant) than the
maximum Python's max selects. -/
lemma latestOf_ge {ts : List Instant} {m : Instant} (h : latestOf ts = some m) :
    ∀ x ∈ ts, x.utc ≤ m.utc := by
  cases ts with
  | nil => simp [latestOf] at h
  | cons t ts =>
    simp only [latestOf, Option.some.injEq] at h
    subst h
    intro x hx
    rcases List.mem_cons.mp hx with hx | hx
    · subst hx
      exact (foldl_max_utc_ge ts x).1
    · exact (foldl_max_utc_ge ts t).2 x hx

lemma foldl_min_ds_le (rs : List Row) (a : Nat) :
    rs.foldl (fun a b => min a b.ds) a ≤ a := by
  induction rs generalizing a with
  | nil => simp
  | cons b rs ih =>
    simp only [List.foldl_cons]
    exact le_trans (ih (min a b.ds)) (min_le_left _ _)

/-- The frame minimum is no larger than the head's ds. -/
lemma minDs_le_head (r : Row) (rs : List Row) : minDs (r :: rs) ≤ r.ds :=
  foldl_min_ds_le rs r.ds

/-- The future-grid filter, spelt as a proposition: hour below 22 and, on the
current day, hour at least min(6, latest hour), on other days at least 6. -/
lemma futureFilter_eq (cd lh t : Nat) :
    futureFilter cd lh t = true ↔
      hourOf t < 22 ∧
        (if dateOf t = cd then min 6 lh ≤ hourOf t else 6 ≤ hourOf t) := by
  unfold futureFilter
  simp only [Bool.or_eq_true, Bool.and_eq_true, decide_eq_true_eq]
  by_cases hd : dateOf t = cd
  · rw [if_pos hd]
    simp only [hd, eq_self_iff_true, true_and]
    rcases Nat.le_total 6 lh with h6 | h6
    · rw [min_eq_left h6]
      omega
    · rw [min_eq_right h6]
      omega
  · rw [if_neg hd]
    omega

/-- C1: the claim asserts the merged training frame has no duplicate slot and
that a real observation beats a synthetic row on conflict.  It is false: for a
single observation on a closed-hour half-hour mark (wall clock 23:00, value
50), the frame keeps both the real row and the synthetic zero row at the same
ds. -/
theorem C1_counterexample :
    (prepare_data [(Instant.mk 1380 0, (50 : ℚ))]).map
        (fun o =>
          ((o.frame.map Row.ds).count 1380, o.frame.count (Row.mk 1380 50),
            o.frame.count (Row.mk 1380 0))) =
      some (2, 1, 1) := by
  decide

/-- C1 (amended): the merged training frame is sorted by slot ascending, and
it is exactly the concatenation of the real base rows with the (truncated)
synthetic closed-hour rows up to reordering — no deduplication happens, so a
slot can carry both a real and a synthetic row. -/
theorem C1_sorted_merge (input : List (Instant × ℚ)) (out : PrepOut)
    (h : prepare_data input = some out) :
    List.Sorted (fun a b => a.ds ≤ b.ds) out.frame ∧
      out.frame.Perm
        (baseRows input ++
          truncateSynth out.latest.wall
            (synthRows (dateOf (minDs (baseRows input)) * 1440)
              (dateOf out.latest.wall * 1440 + 23 * 60 + 59))) := by
  unfold prepare_data at h
  by_cases hb : baseRows input = []
  · rw [if_pos hb] at h
    exact absurd h (by simp)
  · rw [if_neg hb] at h
    cases hl : latestOf (input.map Prod.fst) with
    | none =>
      rw [hl] at h
      exact absurd h (by simp)
    | some latest =>
      rw [hl] at h
      simp only [Option.some.injEq] at h
      subst h
      refine ⟨List.sorted_insertionSort _ _, ?_⟩
      exact List.perm_insertionSort _ _

/-- C1 witness: a concrete run of prepare_data with its sorted frame. -/
theorem C1_sorted_merge_witness :
    List.Sorted (fun a b => a.ds ≤ b.ds)
        (PrepOut.mk
          [Row.mk 0 0, Row.mk 30 0, Row.mk 60 0, Row.mk 90 0, Row.mk 100 50]
          (Instant.mk 100 0)).frame ∧
      (PrepOut.mk
          [Row.mk 0 0, Row.mk 30 0, Row.mk 60 0, Row.mk 90 0, Row.mk 100 50]
          (Instant.mk 100 0)).frame.Perm
        (baseRows [(Instant.mk 100 0, (50 : ℚ))] ++
          truncateSynth
            (PrepOut.mk
              [Row.mk 0 0, Row.mk 30 0, Row.mk 60 0, Row.mk 90 0, Row.mk 100 50]
              (Instant.mk 100 0)).latest.wall
            (synthRows
              (dateOf (minDs (baseRows [(Instant.mk 100 0, (50 : ℚ))])) * 1440)
              (dateOf
                  (PrepOut.mk
                    [Row.mk 0 0, Row.mk 30 0, Row.mk 60 0, Row.mk 90 0,
                      Row.mk 100 50]
                    (Instant.mk 100 0)).latest.wall *
                  1440 +
                23 * 60 + 59))) :=
  C1_sorted_merge [(Instant.mk 100 0, (50 : ℚ))]
    (PrepOut.mk [Row.mk 0 0, Row.mk 30 0, Row.mk 60 0, Row.mk 90 0, Row.mk 100 50]
      (Instant.mk 100 0))
    (by decide)

/-- C2: the claim asserts prepare_future_dates fails with EmptyHorizonError on
an empty filtered grid and never returns an empty frame.  It is false: the
function has no failure path and no emptiness check; at wall clock 23:00 with
a zero-day horizon (the only way the grid can be empty) it returns the empty
frame. -/
theorem C2_counterexample :
    prepare_future_dates (Instant.mk 1380 0) 0 = [] := by
  decide

/-- C2 (amended): prepare_future_dates raises nothing and checks nothing, but
for every validated request (horizon days at least 1) the filtered future
grid is nonempty — the next day's 06:00 slot always survives the filter — so
the model never receives an empty future frame. -/
theorem C2_nonempty (latest : Instant) (days : Nat) (h : 1 ≤ days) :
    prepare_future_dates latest days ≠ [] := by
  have hmem :
      (dateOf latest.wall + 1) * 1440 + 360 ∈ prepare_future_dates latest days := by
    unfold prepare_future_dates
    refine List.mem_filter.mpr ⟨?_, ?_⟩
    · refine mem_gridTimes.mpr ⟨?_, ?_, ?_⟩
      · unfold predictionStart minuteOf dateOf
        split_ifs <;> omega
      · unfold dateOf
        omega
      · unfold predictionStart minuteOf dateOf
        split_ifs <;> omega
    · rw [futureFilter_eq]
      refine ⟨by unfold hourOf dateOf; omega, ?_⟩
      split_ifs
      · exact le_trans (min_le_left 6 _) (by unfold hourOf dateOf; omega)
      · unfold hourOf dateOf
        omega
  intro hempty
  rw [hempty] at hmem
  exact List.not_mem_nil _ hmem

/-- C2 witness: a one-day horizon from wall clock 23:00 yields a nonempty
future frame. -/
theorem C2_nonempty_witness : prepare_future_dates (Instant.mk 1380 0) 1 ≠ [] :=
  C2_nonempty (Instant.mk 1380 0) 1 (by decide)

/-- C4: the claim asserts no current-day slot earlier than 06:00 ever appears.
It is false: with the latest observation at wall clock 02:00 and a one-day
horizon, the current-day slot 02:30 is in the future frame. -/
theorem C4_counterexample :
    150 ∈ prepare_future_dates (Instant.mk 120 0) 1 ∧ hourOf 150 < 6 ∧
      dateOf 150 = dateOf (Instant.mk 120 0).wall := by
  decide

/-- C4 (amended): a slot is in the future frame iff it is on the half-hour
grid from prediction_start to the horizon end and its hour is below 22 and at
least 6 on days other than the current day, while on the current day at least
min(6, latest hour) — so when the latest observation is before 06:00,
current-day slots earlier than 06:00 do appear. -/
theorem C4_filter (latest : Instant) (days t : Nat) :
    t ∈ prepare_future_dates latest days ↔
      t ∈ gridTimes (predictionStart latest.wall)
          ((dateOf latest.wall + days) * 1440 + 23 * 60 + 59) ∧
        hourOf t < 22 ∧
        (if dateOf t = dateOf latest.wall then min 6 (hourOf latest.wall) ≤ hourOf t
          else 6 ≤ hourOf t) := by
  unfold prepare_future_dates
  rw [List.mem_filter, futureFilter_eq]

/-- C3: the claim asserts every failure of the incremental update, including a
failing refit on the merged history, falls back to a full refit and never
propagates.  It is false: a model with a history whose fit raises an exception
other than AssertionError or HTTPException makes the whole step propagate the
error and no fallback happens. -/
theorem C3_counterexample :
    nonFullHistoryFit
        (some (ProphetModel.mk (some []) (fun _ => some PyExc.otherError)))
        (fun _ => none) [] =
      Except.error PyExc.otherError := by
  rfl

/-- C3 (amended): the non-full-history branch equals the decision table
incrementalFitPolicy — the fallback full refit happens exactly when no model
is supplied, when the model has no retrievable history, or when the in-place
refit raises one of the two caught exception types; any other exception of
the in-place refit propagates and aborts the forecast. -/
theorem C3_fallback_policy (model : Option ProphetModel)
    (freshFitExc : List Row → Option PyExc) (df : List Row) :
    nonFullHistoryFit model freshFitExc df =
      incrementalFitPolicy model freshFitExc df := by
  unfold nonFullHistoryFit incrementalFitPolicy
  cases model with
  | none => rfl
  | some m =>
    obtain ⟨hist, fit⟩ := m
    cases hist with
    | none => rfl
    | some hh =>
      cases hfe : fit (dedupKeepFirst (hh ++ df)) with
      | none => simp only [hfe]
      | some e => cases e <;> simp only [hfe]

/-- C5: if the latest observation's wall clock is before 21:30 on its own day,
no synthetic closed-hour row lies after the latest observation's instant; at
21:30 or later, the synthetic rows for that day extend through 23:30 (the slot
at minute 1410 of the latest day is present and is the last one). -/
theorem C5_truncation (input : List (Instant × ℚ)) (out : PrepOut)
    (h : prepare_data input = some out) :
    (timeOfDay out.latest.wall < 1290 →
        ∀ r ∈ truncateSynth out.latest.wall
            (synthRows (dateOf (minDs (baseRows input)) * 1440)
              (dateOf out.latest.wall * 1440 + 23 * 60 + 59)),
          r.ds ≤ out.latest.wall) ∧
      (1290 ≤ timeOfDay out.latest.wall →
        Row.mk (dateOf out.latest.wall * 1440 + 1410) 0 ∈
            truncateSynth out.latest.wall
              (synthRows (dateOf (minDs (baseRows input)) * 1440)
                (dateOf out.latest.wall * 1440 + 23 * 60 + 59)) ∧
          ∀ r ∈ truncateSynth out.latest.wall
              (synthRows (dateOf (minDs (baseRows input)) * 1440)
                (dateOf out.latest.wall * 1440 + 23 * 60 + 59)),
            r.ds ≤ dateOf out.latest.wall * 1440 + 1410) := by
  unfold prepare_data at h
  by_cases hb : baseRows input = []
  · rw [if_pos hb] at h
    exact absurd h (by simp)
  · rw [if_neg hb] at h
    cases hl : latestOf (input.map Prod.fst) with
    | none =>
      rw [hl] at h
      exact absurd h (by simp)
    | some latest =>
      rw [hl] at h
      simp only [Option.some.injEq] at h
      subst h
      dsimp only
      have hmin : minDs (baseRows input) ≤ latest.wall := by
        cases hbr : baseRows input with
        | nil => exact absurd hbr hb
        | cons r rs =>
          have h1 : minDs (r :: rs) ≤ r.ds := minDs_le_head r rs
          have hr : r ∈ baseRows input := by
            rw [hbr]
            exact List.mem_cons_self r rs
          obtain ⟨p, hp, hpe⟩ := List.mem_map.mp hr
          have hpin : p ∈ input := List.mem_of_mem_filter hp
          have hp1 : p.1 ∈ input.map Prod.fst := List.mem_map.mpr ⟨p, hpin, rfl⟩
          have hle := latestOf_ge hl p.1 hp1
          calc minDs (r :: rs) ≤ r.ds := h1
            _ = p.1.utc := by rw [← hpe]
            _ ≤ latest.utc := hle
            _ ≤ latest.wall := Nat.le_add_right _ _
      constructor
      · intro htod r hr
        unfold truncateSynth at hr
        rw [if_pos htod] at hr
        simpa using (List.mem_filter.mp hr).2
      · intro htod
        unfold truncateSynth
        rw [if_neg (by unfold timeOfDay at htod ⊢; omega)]
        constructor
        · unfold synthRows
          apply List.mem_map.mpr
          refine ⟨dateOf latest.wall * 1440 + 1410, ?_, rfl⟩
          apply List.mem_filter.mpr
          constructor
          · apply mem_gridTimes.mpr
            unfold dateOf
            refine ⟨?_, ?_, ?_⟩ <;> omega
          · unfold isClosedHour
            simp only [Bool.or_eq_true, decide_eq_true_eq]
            left
            unfold hourOf dateOf
            omega
        · intro r hr
          unfold synthRows at hr
          obtain ⟨t, ht, rfl⟩ := List.mem_map.mp hr
          have hg := mem_gridTimes.mp (List.mem_of_mem_filter ht)
          dsimp only
          unfold dateOf at hg ⊢
          omega

/-- C5 witness: a single observation at wall clock 21:30 (the boundary); the
synthetic rows of that day extend through the 23:30 slot. -/
theorem C5_truncation_witness :
    Row.mk 1410 0 ∈
      truncateSynth
        (PrepOut.mk
          [Row.mk 0 0, Row.mk 30 0, Row.mk 60 0, Row.mk 90 0, Row.mk 120 0,
            Row.mk 150 0, Row.mk 180 0, Row.mk 210 0, Row.mk 240 0, Row.mk 270 0,
            Row.mk 300 0, Row.mk 330 0, Row.mk 1290 50, Row.mk 1320 0,
            Row.mk 1350 0, Row.mk 1380 0, Row.mk 1410 0]
          (Instant.mk 1290 0)).latest.wall
        (synthRows
          (dateOf (minDs (baseRows [(Instant.mk 1290 0, (50 : ℚ))])) * 1440)
          (dateOf
              (PrepOut.mk
                [Row.mk 0 0, Row.mk 30 0, Row.mk 60 0, Row.mk 90 0, Row.mk 120 0,
                  Row.mk 150 0, Row.mk 180 0, Row.mk 210 0, Row.mk 240 0,
                  Row.mk 270 0, Row.mk 300 0, Row.mk 330 0, Row.mk 1290 50,
                  Row.mk 1320 0, Row.mk 1350 0, Row.mk 1380 0, Row.mk 1410 0]
                (Instant.mk 1290 0)).latest.wall *
              1440 +
            23 * 60 + 59)) :=
  ((C5_truncation [(Instant.mk 1290 0, (50 : ℚ))]
        (PrepOut.mk
          [Row.mk 0 0, Row.mk 30 0, Row.mk 60 0, Row.mk 90 0, Row.mk 120 0,
            Row.mk 150 0, Row.mk 180 0, Row.mk 210 0, Row.mk 240 0, Row.mk 270 0,
            Row.mk 300 0, Row.mk 330 0, Row.mk 1290 50, Row.mk 1320 0,
            Row.mk 1350 0, Row.mk 1380 0, Row.mk 1410 0]
          (Instant.mk 1290 0))
        (by decide)).2
      (by decide)).1

/-- The base training rows are unchanged by pre-filtering the negative-valued
pairs away: the negative filter is idempotent. -/
lemma baseRows_validPairs (input : List (Instant × ℚ)) :
    baseRows (validPairs input) = baseRows input := by
  unfold baseRows validPairs
  rw [List.filter_filter]
  simp

/-- C6: the claim asserts negative-valued observations have no effect on the
result.  It is false: the maximum timestamp is taken over ALL input
timestamps (functions.py line 345, before any processing), so a
negative-valued pair carrying the latest timestamp changes the covered-range
end, the truncation point and hence the training frame and prediction start. -/
theorem C6_counterexample :
    prepare_data [(Instant.mk 600 0, (50 : ℚ)), (Instant.mk 1380 0, (-1 : ℚ))] ≠
      prepare_data [(Instant.mk 600 0, (50 : ℚ))] := by
  decide

/-- C6 (amended): removing the negative-valued pairs leaves the result
unchanged whenever it does not change the maximum-timestamp selection — in
particular whenever the pair with the latest timestamp has a nonnegative
value; the base training rows themselves never depend on the negative
pairs. -/
theorem C6_negative_pairs (input : List (Instant × ℚ))
    (h : latestOf (input.map Prod.fst) = latestOf ((validPairs input).map Prod.fst)) :
    prepare_data input = prepare_data (validPairs input) := by
  unfold prepare_data
  rw [baseRows_validPairs, ← h]

/-- C6 witness: with no negative pair present the two runs agree. -/
theorem C6_negative_pairs_witness :
    prepare_data [(Instant.mk 600 0, (50 : ℚ))] =
      prepare_data (validPairs [(Instant.mk 600 0, (50 : ℚ))]) :=
  C6_negative_pairs [(Instant.mk 600 0, (50 : ℚ))] (by decide)

/-- C7: the claim asserts all zone-naive instants live on one single reference
wall clock.  The code converts the real observations to the UTC wall clock
(functions.py line 337) but reads the latest timestamp, the covered-range end,
the truncation bound and the future grid off the input zone's wall clock: for
one observation taken at wall clock 06:30 in a zone one hour east of UTC
(offset 60), the training row lands at naive minute 330 (05:30 UTC, a closed
hour, colliding with the synthetic zero row) while the latest-instant logic
uses naive minute 390 — two different wall clocks for the same instant. -/
theorem C7_zone_mix :
    (prepare_data [(Instant.mk 330 60, (50 : ℚ))]).map
        (fun o =>
          (o.frame.count (Row.mk 330 50), o.frame.count (Row.mk 330 0),
            o.latest.wall)) =
        some (1, 1, 390) ∧
      hourOf 330 < 6 ∧ 6 ≤ hourOf 390 := by
  decide

lemma accum_foldl (l : List FRow) (p : Period) (s : ℚ) (n : Nat) :
    l.foldl
        (fun acc r =>
          if classifyHour (hourOf r.ds) = some p then (acc.1 + r.yhat, acc.2 + 1)
          else acc)
        (s, n) =
      (s + ((l.filter (fun r => classifyHour (hourOf r.ds) = some p)).map FRow.yhat).sum,
        n + (l.filter (fun r => classifyHour (hourOf r.ds) = some p)).length) := by
  induction l generalizing s n with
  | nil => simp
  | cons r rs ih =>
    simp only [List.foldl_cons, List.filter_cons]
    by_cases hc : classifyHour (hourOf r.ds) = some p
    · rw [if_pos hc, if_pos (by simp [hc]), ih]
      simp only [List.map_cons, List.sum_cons, List.length_cons, Prod.mk.injEq]
      exact ⟨by ring, by omega⟩
    · rw [if_neg hc, if_neg (by simp [hc]), ih]

/-- The running (value, count) accumulator over a day's rows equals the sum
and the number of the rows classified into the period. -/
lemma accumPeriod_spec (l : List FRow) (p : Period) :
    accumPeriod l p =
      (((l.filter (fun r => classifyHour (hourOf r.ds) = some p)).map FRow.yhat).sum,
        (l.filter (fun r => classifyHour (hourOf r.ds) = some p)).length) := by
  unfold accumPeriod
  rw [accum_foldl]
  simp

/-- Membership in the period summary, characterised: a period appears exactly
when at least one clipped point of the day classifies into it, and then its
value is the 1-decimal rounding of the mean of the unrounded clipped yhat
values of exactly those points. -/
lemma mem_periodSummary (rows : List FRow) (d : Nat) (p : Period) (v : ℚ) :
    (p, v) ∈ periodSummary rows d ↔
      0 <
          ((dayRows (clipForecast rows) d).filter
              (fun r => classifyHour (hourOf r.ds) = some p)).length ∧
        v =
          round1
            ((((dayRows (clipForecast rows) d).filter
                    (fun r => classifyHour (hourOf r.ds) = some p)).map
                  FRow.yhat).sum /
              ((((dayRows (clipForecast rows) d).filter
                    (fun r => classifyHour (hourOf r.ds) = some p)).length :
                  ℚ))) := by
  unfold periodSummary
  rw [List.mem_filterMap]
  constructor
  · rintro ⟨e, he, hfe⟩
    simp only [accumPeriod_spec] at hfe
    split_ifs at hfe with hcond
    simp only [Option.some.injEq, Prod.mk.injEq] at hfe
    obtain ⟨h1, h2⟩ := hfe
    subst h1
    exact ⟨hcond, h2.symm⟩
  · rintro ⟨hc, hv⟩
    obtain ⟨e, he, he1⟩ : ∃ e ∈ regularPeriods, e.1 = p := by
      cases p
      · exact ⟨(Period.early_morning, 6, 9), by decide, rfl⟩
      · exact ⟨(Period.late_morning, 9, 11), by decide, rfl⟩
      · exact ⟨(Period.lunch, 11, 13), by decide, rfl⟩
      · exact ⟨(Period.afternoon, 13, 16), by decide, rfl⟩
      · exact ⟨(Period.after_work, 16, 19), by decide, rfl⟩
      · exact ⟨(Period.evening, 19, 22), by decide, rfl⟩
    refine ⟨e, he, ?_⟩
    simp only [accumPeriod_spec]
    rw [he1, if_pos hc, hv]

lemma clip_nonneg (q : ℚ) : 0 ≤ clip q := le_max_left 0 _

lemma clip_le_hundred (q : ℚ) : clip q ≤ 100 :=
  max_le (by norm_num) (min_le_left 100 q)

lemma roundHalfEven_nonneg (q : ℚ) (h : 0 ≤ q) : 0 ≤ roundHalfEven q := by
  unfold roundHalfEven
  have h0 : (0 : ℤ) ≤ ⌊q⌋ := Int.floor_nonneg.mpr h
  split_ifs
  all_goals omega

lemma roundHalfEven_le (q : ℚ) (h : q ≤ 1000) : roundHalfEven q ≤ 1000 := by
  unfold roundHalfEven
  have h1 : ⌊q⌋ ≤ 1000 := by
    have h2 := Int.floor_le_floor h
    norm_num at h2
    exact h2
  have hfl : (⌊q⌋ : ℚ) ≤ q := Int.floor_le q
  split_ifs with ha hb hc
  · exact h1
  · push_neg at ha
    have h2 : (⌊q⌋ : ℚ) < 1000 := by linarith
    have h3 : ⌊q⌋ < 1000 := by exact_mod_cast h2
    omega
  · exact h1
  · push_neg at ha
    have h2 : (⌊q⌋ : ℚ) < 1000 := by linarith
    have h3 : ⌊q⌋ < 1000 := by exact_mod_cast h2
    omega

lemma round1_bounds (q : ℚ) (h0 : 0 ≤ q) (h1 : q ≤ 100) :
    0 ≤ round1 q ∧ round1 q ≤ 100 := by
  unfold round1
  constructor
  · apply div_nonneg _ (by norm_num)
    exact_mod_cast roundHalfEven_nonneg (10 * q) (by linarith)
  · rw [div_le_iff₀ (by norm_num : (0 : ℚ) < 10)]
    have h2 := roundHalfEven_le (10 * q) (by linarith)
    calc ((roundHalfEven (10 * q) : ℤ) : ℚ) ≤ 1000 := by exact_mod_cast h2
      _ = 100 * 10 := by norm_num

/-- C8: for each day of the aggregated output, a regular window appears in
the period summary exactly when at least one of the day's points classifies
into it (zero-point windows are omitted, never emitted as zero), and its
value is round(sum/count, 1) where the sum accumulates the unrounded clipped
per-point means — not the 2-decimal rounded detailed values. -/
theorem C8_period_average (rows : List FRow) (d : Nat) (p : Period) (v : ℚ) :
    (p, v) ∈ periodSummary rows d ↔
      0 <
          ((dayRows (clipForecast rows) d).filter
              (fun r => classifyHour (hourOf r.ds) = some p)).length ∧
        v =
          round1
            ((((dayRows (clipForecast rows) d).filter
                    (fun r => classifyHour (hourOf r.ds) = some p)).map
                  FRow.yhat).sum /
              ((((dayRows (clipForecast rows) d).filter
                    (fun r => classifyHour (hourOf r.ds) = some p)).length :
                  ℚ))) :=
  mem_periodSummary rows d p v

/-- C9: after the clipping step every forecast mean, lower bound and upper
bound lies in [0, 100], whatever the model produced, and each of the three
columns is clipped independently of the others. -/
theorem C9_clip_range (rows : List FRow) (s : FRow) (h : s ∈ rows) :
    clipRow s ∈ clipForecast rows ∧
      clipRow s = FRow.mk s.ds (clip s.yhat) (clip s.lo) (clip s.hi) ∧
      0 ≤ (clipRow s).yhat ∧ (clipRow s).yhat ≤ 100 ∧
      0 ≤ (clipRow s).lo ∧ (clipRow s).lo ≤ 100 ∧
      0 ≤ (clipRow s).hi ∧ (clipRow s).hi ≤ 100 :=
  ⟨List.mem_map_of_mem clipRow h, rfl, clip_nonneg s.yhat, clip_le_hundred s.yhat,
    clip_nonneg s.lo, clip_le_hundred s.lo, clip_nonneg s.hi, clip_le_hundred s.hi⟩

/-- C9 witness: a raw row with mean above 100 and lower bound below 0 is
clipped componentwise into range. -/
theorem C9_clip_range_witness :
    clipRow (FRow.mk 360 150 (-5) 90) ∈ clipForecast [FRow.mk 360 150 (-5) 90] ∧
      clipRow (FRow.mk 360 150 (-5) 90) =
        FRow.mk (FRow.mk 360 150 (-5) 90).ds (clip (FRow.mk 360 150 (-5) 90).yhat)
          (clip (FRow.mk 360 150 (-5) 90).lo) (clip (FRow.mk 360 150 (-5) 90).hi) ∧
      0 ≤ (clipRow (FRow.mk 360 150 (-5) 90)).yhat ∧
      (clipRow (FRow.mk 360 150 (-5) 90)).yhat ≤ 100 ∧
      0 ≤ (clipRow (FRow.mk 360 150 (-5) 90)).lo ∧
      (clipRow (FRow.mk 360 150 (-5) 90)).lo ≤ 100 ∧
      0 ≤ (clipRow (FRow.mk 360 150 (-5) 90)).hi ∧
      (clipRow (FRow.mk 360 150 (-5) 90)).hi ≤ 100 :=
  C9_clip_range [FRow.mk 360 150 (-5) 90] (FRow.mk 360 150 (-5) 90) (by decide)

/-- C10: every period-summary value lies in [0, 100], for every model output:
the accumulated means are clipped and a summary is only emitted with a
positive count, so the rounded average cannot leave the schema's bound. -/
theorem C10_summary_range (rows : List FRow) (d : Nat) (p : Period) (v : ℚ)
    (h : (p, v) ∈ periodSummary rows d) : 0 ≤ v ∧ v ≤ 100 := by
  rw [mem_periodSummary] at h
  obtain ⟨hc, hv⟩ := h
  set pts :=
    (dayRows (clipForecast rows) d).filter
      (fun r => classifyHour (hourOf r.ds) = some p) with hpts
  have hb : ∀ x ∈ pts.map FRow.yhat, 0 ≤ x ∧ x ≤ 100 := by
    intro x hx
    obtain ⟨r, hr, rfl⟩ := List.mem_map.mp hx
    have hr1 : r ∈ dayRows (clipForecast rows) d := List.mem_of_mem_filter hr
    have hr2 : r ∈ clipForecast rows := List.mem_of_mem_filter hr1
    obtain ⟨s, _, rfl⟩ := List.mem_map.mp hr2
    exact ⟨clip_nonneg s.yhat, clip_le_hundred s.yhat⟩
  have hlen : (0 : ℚ) < (pts.length : ℚ) := by exact_mod_cast hc
  have hsum0 : 0 ≤ (pts.map FRow.yhat).sum :=
    List.sum_nonneg fun x hx => (hb x hx).1
  have hsum1 : (pts.map FRow.yhat).sum ≤ (pts.map FRow.yhat).length • (100 : ℚ) :=
    List.sum_le_card_nsmul _ _ fun x hx => (hb x hx).2
  rw [nsmul_eq_mul, List.length_map] at hsum1
  have hm0 : 0 ≤ (pts.map FRow.yhat).sum / (pts.length : ℚ) :=
    div_nonneg hsum0 (le_of_lt hlen)
  have hm1 : (pts.map FRow.yhat).sum / (pts.length : ℚ) ≤ 100 := by
    rw [div_le_iff₀ hlen]
    calc (pts.map FRow.yhat).sum ≤ (pts.length : ℚ) * 100 := hsum1
      _ = 100 * (pts.length : ℚ) := by ring
  rw [hv]
  exact round1_bounds _ hm0 hm1

/-- C10 witness: one in-range point at 06:00 gives the early-morning summary
value 50, inside the bound. -/
theorem C10_summary_range_witness : (0 : ℚ) ≤ 50 ∧ (50 : ℚ) ≤ 100 :=
  C10_summary_range [FRow.mk 360 50 40 60] 0 Period.early_morning 50
    (by
      simp only [periodSummary, regularPeriods, accumPeriod, dayRows, clipForecast,
        clipRow, clip, classifyHour, hourOf, dateOf, round1, roundHalfEven,
        List.filterMap, List.filter, List.foldl, List.map, List.find?]
      norm_num [min_def, max_def])

end Badi
